import Mathlib

/-!
Shallow embedding of `src/minitorch/modules_basic.py`.

Tensors of shape `(a, b)` are embedded as functions `Fin a → Fin b → α`
(row-major, matching minitorch contiguous storage), and the float32
arithmetic of the source is embedded as exact arithmetic: `ℚ` where the
computation is rational, `ℝ` for layer normalization (which takes a
square root).  Randomness drawn from `np.random` is embedded as an
explicit oracle argument (`RNG`, a stream of draws), since the global
numpy generator is external input to this file.

The tensor primitives the file calls (`one_hot`, `view`, `@`/matmul,
`mean`, broadcasting arithmetic) live in the pre-existing minitorch
library, which is not part of this repository snapshot; they are
modelled from the spec as the standard mathematical operations, with a
doc comment marking each such definition.
-/

namespace ModulesBasic

open Finset

/-- A stream of random draws, standing for the state of the global
`np.random` generator: the `t`-th draw is `r t`, a uniform sample. -/
def RNG : Type := ℕ → ℚ

/-- Row-major flattening of a pair of indices: position `(b, s)` of a
`(bs, sl)`-shaped tensor sits at flat offset `b * sl + s`. -/
theorem flat_lt {bs sl : ℕ} (b : Fin bs) (s : Fin sl) :
    b.val * sl + s.val < bs * sl := by
  have h1 : b.val + 1 ≤ bs := b.isLt
  calc b.val * sl + s.val < b.val * sl + sl := by omega
    _ = (b.val + 1) * sl := by ring
    _ ≤ bs * sl := Nat.mul_le_mul_right sl h1

/-- The flat offset of position `(b, s)`, as an index into the merged
dimension of size `bs * sl`. -/
def flatIdx {bs sl : ℕ} (b : Fin bs) (s : Fin sl) : Fin (bs * sl) :=
  ⟨b.val * sl + s.val, flat_lt b s⟩

theorem div_lt_of_fin {bs sl : ℕ} (r : Fin (bs * sl)) : r.val / sl < bs := by
  apply Nat.div_lt_of_lt_mul
  rw [Nat.mul_comm sl bs]
  exact r.isLt

theorem mod_lt_of_fin {bs sl : ℕ} (r : Fin (bs * sl)) : r.val % sl < sl := by
  have hsl : 0 < sl := by
    rcases Nat.eq_zero_or_pos sl with h0 | h0
    · subst h0
      exact absurd r.isLt (by simp)
    · exact h0
  exact Nat.mod_lt _ hsl

/-- Modelled from the spec: `Tensor.view` reshaping a contiguous
`(bs, sl, n)` tensor to `(bs * sl, n)` — flat row `r` holds entry
`(r / sl, r % sl)` of the original. -/
def view_merge {bs sl n : ℕ} (t : Fin bs → Fin sl → Fin n → ℚ) :
    Fin (bs * sl) → Fin n → ℚ :=
  fun r e => t ⟨r.val / sl, div_lt_of_fin r⟩ ⟨r.val % sl, mod_lt_of_fin r⟩ e

/-- Modelled from the spec: `Tensor.view` reshaping a contiguous
`(bs * sl, d)` tensor back to `(bs, sl, d)`. -/
def view_split {bs sl d : ℕ} (t : Fin (bs * sl) → Fin d → ℚ) :
    Fin bs → Fin sl → Fin d → ℚ :=
  fun b s e => t (flatIdx b s) e

/-- Modelled from the spec: the `@` matrix-multiply tensor operator. -/
def matmul {m k n : ℕ} (A : Fin m → Fin k → ℚ) (B : Fin k → Fin n → ℚ) :
    Fin m → Fin n → ℚ :=
  fun i j => ∑ e, A i e * B e j

/-- Modelled from the spec: `minitorch.nn.one_hot(x, n)` — maps a
`(bs, sl)` tensor of word indices to a `(bs, sl, n)` tensor whose slice
at `(b, s)` is the one-hot vector of index `x b s`. -/
def one_hot {bs sl : ℕ} (n : ℕ) (x : Fin bs → Fin sl → ℕ) :
    Fin bs → Fin sl → Fin n → ℚ :=
  fun b s e => if x b s = e.val then 1 else 0

/-- The `Embedding` module: its learnable state is the weight tensor of
shape `(num_embeddings, embedding_dim)` (both sizes are type indices). -/
structure Embedding (num_embeddings embedding_dim : ℕ) where
  weights : Fin num_embeddings → Fin embedding_dim → ℚ

/-- `Embedding.__init__`: stores the weight parameter.  The initial
values, drawn from `np.random.randn` (external randomness), are the
oracle argument `vals`. -/
def Embedding.init (num_embeddings embedding_dim : ℕ)
    (vals : Fin num_embeddings → Fin embedding_dim → ℚ) :
    Embedding num_embeddings embedding_dim :=
  ⟨vals⟩

/-- `Embedding.forward`: one-hot encode, flatten to `(bs * sl, n)`,
matrix-multiply by the weights, reshape to `(bs, sl, embedding_dim)`. -/
def Embedding.forward {n d bs sl : ℕ} (m : Embedding n d)
    (x : Fin bs → Fin sl → ℕ) : Fin bs → Fin sl → Fin d → ℚ :=
  view_split (matmul (view_merge (one_hot n x)) m.weights)

theorem flatIdx_div {bs sl : ℕ} (b : Fin bs) (s : Fin sl) :
    (flatIdx b s).val / sl = b.val := by
  show (b.val * sl + s.val) / sl = b.val
  rw [Nat.mul_comm b.val sl, Nat.mul_add_div s.pos, Nat.div_eq_of_lt s.isLt]
  omega

theorem flatIdx_mod {bs sl : ℕ} (b : Fin bs) (s : Fin sl) :
    (flatIdx b s).val % sl = s.val := by
  show (b.val * sl + s.val) % sl = s.val
  rw [Nat.mul_comm b.val sl, Nat.mul_add_mod, Nat.mod_eq_of_lt s.isLt]

theorem view_merge_flatIdx {bs sl n : ℕ} (t : Fin bs → Fin sl → Fin n → ℚ)
    (b : Fin bs) (s : Fin sl) (e : Fin n) :
    view_merge t (flatIdx b s) e = t b s e := by
  have hb : (⟨(flatIdx b s).val / sl, div_lt_of_fin (flatIdx b s)⟩ : Fin bs) = b :=
    Fin.ext (flatIdx_div b s)
  have hs : (⟨(flatIdx b s).val % sl, mod_lt_of_fin (flatIdx b s)⟩ : Fin sl) = s :=
    Fin.ext (flatIdx_mod b s)
  show t ⟨(flatIdx b s).val / sl, div_lt_of_fin (flatIdx b s)⟩
      ⟨(flatIdx b s).val % sl, mod_lt_of_fin (flatIdx b s)⟩ e = t b s e
  rw [hb, hs]

theorem one_hot_matmul {bs sl n d : ℕ} (x : Fin bs → Fin sl → ℕ)
    (w : Fin n → Fin d → ℚ) (b : Fin bs) (s : Fin sl) (h : x b s < n)
    (e : Fin d) :
    (∑ i, one_hot n x b s i * w i e) = w ⟨x b s, h⟩ e := by
  have hcongr : ∀ i : Fin n,
      one_hot n x b s i * w i e = if i = ⟨x b s, h⟩ then w i e else 0 := by
    intro i
    by_cases hc : i = ⟨x b s, h⟩
    · subst hc
      simp [one_hot]
    · have hne : ¬ x b s = i.val := by
        intro hv
        exact hc (Fin.ext hv.symm)
      simp [one_hot, hne, hc]
  rw [Finset.sum_congr rfl fun i _ => hcongr i]
  simp

/-- The `Dropout` module: configuration probability `p_dropout` and the
`training` flag inherited from the `Module` base class. -/
structure Dropout where
  p_dropout : ℚ
  training : Bool

/-- Modelled from the spec: the mask drawn by
`np.random.binomial(n=1, p=1-p_dropout, size=x.shape)` — entry `i` is 1
exactly when the `i`-th uniform draw falls below `1 - p_dropout`,
else 0. -/
def Dropout.mask (p : ℚ) (r : RNG) (k : ℕ) : Fin k → ℚ :=
  fun i => if r i.val < 1 - p then 1 else 0

/-- `Dropout.forward` on a tensor with `k` elements (any shape,
flattened).  If the module is not training or `p_dropout == 0` it
returns `x` and leaves the random stream untouched; otherwise it draws
a 0/1 mask, multiplies elementwise and divides by `1 - p_dropout`,
consuming `k` draws from the stream. -/
def Dropout.forward {k : ℕ} (m : Dropout) (r : RNG) (x : Fin k → ℚ) :
    (Fin k → ℚ) × RNG :=
  if m.training = false ∨ m.p_dropout = 0 then (x, r)
  else ((fun i => x i * Dropout.mask m.p_dropout r k i / (1 - m.p_dropout)),
        fun t => r (t + k))

/-- The `Linear` module: weights of shape `(in_size, out_size)`, the
`use_bias` flag, and the optional bias parameter of shape
`(out_size,)`. -/
structure Linear (in_size out_size : ℕ) where
  weights : Fin in_size → Fin out_size → ℚ
  use_bias : Bool
  bias : Option (Fin out_size → ℚ)

/-- `Linear.__init__`: stores the weight parameter, and the bias
parameter exactly when `bias = true`.  The initial values, drawn from
`np.random.uniform` (external randomness), are the oracle arguments
`wv` and `bv`. -/
def Linear.init (in_size out_size : ℕ) (bias : Bool)
    (wv : Fin in_size → Fin out_size → ℚ) (bv : Fin out_size → ℚ) :
    Linear in_size out_size :=
  ⟨wv, bias, if bias then some bv else none⟩

/-- `Linear.forward`: `out = x @ weights`, plus the broadcast bias when
`use_bias` is set.  (`self.bias.value` is only evaluated on the
`use_bias` branch; modules built by `Linear.init` always carry a bias
there, so the `Option.getD` default is never reached for them.) -/
def Linear.forward {in_size out_size n : ℕ} (m : Linear in_size out_size)
    (x : Fin n → Fin in_size → ℚ) : Fin n → Fin out_size → ℚ :=
  let out := matmul x m.weights
  if m.use_bias then (fun i j => out i j + (m.bias.getD (fun _ => 0)) j)
  else out

/-- The `LayerNorm1d` module: weights and bias of shape `(dim,)` and
the configuration field `eps`.  Over `ℝ` because the forward pass takes
a square root. -/
structure LayerNorm1d (dim : ℕ) where
  weights : Fin dim → ℝ
  bias : Fin dim → ℝ
  eps : ℝ

/-- `LayerNorm1d.__init__`: weights initialized to all ones, bias to
all zeros (`np.ones` / `np.zeros`). -/
def LayerNorm1d.init (dim : ℕ) (eps : ℝ) : LayerNorm1d dim :=
  ⟨fun _ => 1, fun _ => 0, eps⟩

/-- Modelled from the spec: `Tensor.mean(dim=1)` on a `(bs, d)` tensor —
the arithmetic mean of each row. -/
noncomputable def tmean {bs d : ℕ} (x : Fin bs → Fin d → ℝ) : Fin bs → ℝ :=
  fun i => (∑ j, x i j) / (d : ℝ)

/-- `LayerNorm1d.forward`: per row, subtract the mean, divide by the
square root of the biased variance plus `eps` (the source computes
`(var + eps) ** 0.5`, embedded as `Real.sqrt`), then scale by the
broadcast weights and add the broadcast bias. -/
noncomputable def LayerNorm1d.forward {dim bs : ℕ} (m : LayerNorm1d dim)
    (x : Fin bs → Fin dim → ℝ) : Fin bs → Fin dim → ℝ :=
  let mean := tmean x
  let diff := fun (i : Fin bs) (j : Fin dim) => x i j - mean i
  let var := tmean (fun i j => diff i j * diff i j)
  let x_hat := fun (i : Fin bs) (j : Fin dim) =>
    diff i j / Real.sqrt (var i + m.eps)
  fun i j => x_hat i j * m.weights j + m.bias j

/-- Follows the spec wording of C2: the arithmetic mean over the `dim`
entries of a row. -/
noncomputable def rowMean {bs d : ℕ} (x : Fin bs → Fin d → ℝ) (i : Fin bs) : ℝ :=
  (∑ j, x i j) / (d : ℝ)

/-- Follows the spec wording of C2: the biased (divide-by-`dim`)
variance of a row. -/
noncomputable def rowVar {bs d : ℕ} (x : Fin bs → Fin d → ℝ) (i : Fin bs) : ℝ :=
  (∑ j, (x i j - rowMean x i) ^ 2) / (d : ℝ)

/-- `Embedding.forward` with its failure point explicit: in the source,
word indices outside `[0, num_embeddings)` leave the documented domain
of `one_hot`; inside it the method runs to the end and returns.  The
shape precondition `(batch_size, seq_len)` is carried by the type of
`x`. -/
def Embedding.forwardE {n d bs sl : ℕ} (m : Embedding n d)
    (x : Fin bs → Fin sl → ℕ) : Option (Fin bs → Fin sl → Fin d → ℚ) :=
  if ∀ b s, x b s < n then some (m.forward x) else none

/-- `Linear.forward` with its failure point explicit: the only failure
branch is evaluating `self.bias.value` when no bias parameter exists. -/
def Linear.forwardE {in_size out_size n : ℕ} (m : Linear in_size out_size)
    (x : Fin n → Fin in_size → ℚ) : Option (Fin n → Fin out_size → ℚ) :=
  match m.use_bias, m.bias with
  | true, none => none
  | _, _ => some (m.forward x)

/-- `LayerNorm1d.forward` has no failure branch: every step is a total
tensor operation on the `(bs, dim)`-shaped input. -/
noncomputable def LayerNorm1d.forwardE {dim bs : ℕ} (m : LayerNorm1d dim)
    (x : Fin bs → Fin dim → ℝ) : Option (Fin bs → Fin dim → ℝ) :=
  some (m.forward x)

/-- `Dropout.forward` has no failure branch on any input shape. -/
def Dropout.forwardE {k : ℕ} (m : Dropout) (r : RNG) (x : Fin k → ℚ) :
    Option ((Fin k → ℚ) × RNG) :=
  some (m.forward r x)

/-- `Embedding.forward` with the global random stream threaded through:
the method draws nothing from `np.random`, so the stream passes through
unchanged. -/
def Embedding.forwardR {n d bs sl : ℕ} (m : Embedding n d)
    (x : Fin bs → Fin sl → ℕ) (r : RNG) :
    (Fin bs → Fin sl → Fin d → ℚ) × RNG :=
  (m.forward x, r)

/-- `Linear.forward` with the global random stream threaded through: it
draws nothing from `np.random`. -/
def Linear.forwardR {in_size out_size n : ℕ} (m : Linear in_size out_size)
    (x : Fin n → Fin in_size → ℚ) (r : RNG) :
    (Fin n → Fin out_size → ℚ) × RNG :=
  (m.forward x, r)

/-- `LayerNorm1d.forward` with the global random stream threaded
through: it draws nothing from `np.random`. -/
noncomputable def LayerNorm1d.forwardR {dim bs : ℕ} (m : LayerNorm1d dim)
    (x : Fin bs → Fin dim → ℝ) (r : RNG) :
    (Fin bs → Fin dim → ℝ) × RNG :=
  (m.forward x, r)

/-- `Embedding.forward` as a state transformer on the module: the body
never assigns to `self`, so the resulting module state is the initial
one. -/
def Embedding.forwardS {n d bs sl : ℕ} (m : Embedding n d)
    (x : Fin bs → Fin sl → ℕ) :
    (Fin bs → Fin sl → Fin d → ℚ) × Embedding n d :=
  (m.forward x, m)

/-- `Dropout.forward` as a state transformer on the module: it reads
`self.training` and `self.p_dropout` but never assigns to `self`. -/
def Dropout.forwardS {k : ℕ} (m : Dropout) (r : RNG) (x : Fin k → ℚ) :
    ((Fin k → ℚ) × RNG) × Dropout :=
  (m.forward r x, m)

/-- `Linear.forward` as a state transformer on the module: the body
never assigns to `self`. -/
def Linear.forwardS {in_size out_size n : ℕ} (m : Linear in_size out_size)
    (x : Fin n → Fin in_size → ℚ) :
    (Fin n → Fin out_size → ℚ) × Linear in_size out_size :=
  (m.forward x, m)

/-- `LayerNorm1d.forward` as a state transformer on the module: the
body never assigns to `self`. -/
noncomputable def LayerNorm1d.forwardS {dim bs : ℕ} (m : LayerNorm1d dim)
    (x : Fin bs → Fin dim → ℝ) :
    (Fin bs → Fin dim → ℝ) × LayerNorm1d dim :=
  (m.forward x, m)

/-- C1: `Embedding.forward` implements embedding lookup — on an input of
shape `(bs, sl)` whose entries are indices in `[0, num_embeddings)`, the
output has shape `(bs, sl, embedding_dim)` (carried by its type) and its
slice at `(b, s)` equals row `x b s` of the weight matrix; the
computation goes through `one_hot` followed by a matrix multiply. -/
theorem C1_embedding_forward_is_lookup {n d bs sl : ℕ} (m : Embedding n d)
    (x : Fin bs → Fin sl → ℕ) (b : Fin bs) (s : Fin sl) (h : x b s < n)
    (e : Fin d) :
    m.forward x b s e = m.weights ⟨x b s, h⟩ e := by
  show (∑ i, view_merge (one_hot n x) (flatIdx b s) i * m.weights i e)
      = m.weights ⟨x b s, h⟩ e
  rw [Finset.sum_congr rfl fun i _ => by rw [view_merge_flatIdx]]
  exact one_hot_matmul x m.weights b s h e

/-- Witness for C1 at a concrete module and input. -/
theorem C1_witness :
    Embedding.forward (⟨fun i _ => (i.val : ℚ)⟩ : Embedding 2 1)
      (fun (_ : Fin 1) (_ : Fin 1) => 1) 0 0 0 = 1 := by
  rw [C1_embedding_forward_is_lookup (⟨fun i _ => (i.val : ℚ)⟩ : Embedding 2 1)
    (fun (_ : Fin 1) (_ : Fin 1) => 1) 0 0 (by decide) 0]
  norm_num

/-- C2: `LayerNorm1d.forward` implements layer normalization — each row
of the `(bs, dim)` output equals the row of `x` minus its arithmetic
mean, divided by the square root of the biased variance plus `eps`,
scaled by the module weights and shifted by the module bias. -/
theorem C2_layernorm_forward_formula {dim bs : ℕ} (m : LayerNorm1d dim)
    (x : Fin bs → Fin dim → ℝ) (i : Fin bs) (j : Fin dim) :
    m.forward x i j =
      (x i j - rowMean x i) / Real.sqrt (rowVar x i + m.eps) * m.weights j
        + m.bias j := by
  have hv : (∑ jj, (x i jj - rowMean x i) * (x i jj - rowMean x i))
      = ∑ jj, (x i jj - rowMean x i) ^ 2 :=
    Finset.sum_congr rfl (fun jj _ => by ring)
  show (x i j - rowMean x i) /
      Real.sqrt ((∑ jj, (x i jj - rowMean x i) * (x i jj - rowMean x i))
        / (dim : ℝ) + m.eps) * m.weights j + m.bias j
      = (x i j - rowMean x i) /
      Real.sqrt ((∑ jj, (x i jj - rowMean x i) ^ 2) / (dim : ℝ) + m.eps)
        * m.weights j + m.bias j
  rw [hv]

/-- C3: `Linear.forward` on a module built with `bias = true` computes
`x @ weights + bias`, and on a module built with `bias = false` computes
exactly `x @ weights`. -/
theorem C3_linear_forward_affine {in_size out_size n : ℕ}
    (wv : Fin in_size → Fin out_size → ℚ) (bv : Fin out_size → ℚ)
    (x : Fin n → Fin in_size → ℚ) (i : Fin n) (j : Fin out_size) :
    (Linear.init in_size out_size true wv bv).forward x i j
        = (∑ k, x i k * wv k j) + bv j ∧
    (Linear.init in_size out_size false wv bv).forward x i j
        = ∑ k, x i k * wv k j := by
  constructor
  · simp [Linear.init, Linear.forward, matmul]
  · simp [Linear.init, Linear.forward, matmul]

/-- C4: in training mode with `0 < p_dropout < 1`, `Dropout.forward`
has the same shape as `x` (carried by its type) and there is a 0/1 mask
with output = input · mask / (1 - p_dropout); so every output entry is
either 0 or the input entry scaled by `1/(1 - p_dropout)`. -/
theorem C4_dropout_training_mask {k : ℕ} (m : Dropout)
    (hp0 : 0 < m.p_dropout) (_hp1 : m.p_dropout < 1) (ht : m.training = true)
    (r : RNG) (x : Fin k → ℚ) :
    ∃ mask : Fin k → ℚ, (∀ i, mask i = 0 ∨ mask i = 1) ∧
      (∀ i, (m.forward r x).1 i = x i * mask i / (1 - m.p_dropout)) ∧
      (∀ i, (m.forward r x).1 i = 0 ∨
        (m.forward r x).1 i = x i * (1 - m.p_dropout)⁻¹) := by
  have hcond : ¬ (m.training = false ∨ m.p_dropout = 0) := by
    rintro (hf | hz)
    · rw [ht] at hf
      exact Bool.noConfusion hf
    · exact absurd hz.symm (ne_of_lt hp0)
  refine ⟨Dropout.mask m.p_dropout r k, ?_, ?_, ?_⟩
  · intro i
    rcases lt_or_ge (r i.val) (1 - m.p_dropout) with hlt | hge
    · right
      simp [Dropout.mask, hlt]
    · left
      simp [Dropout.mask, not_lt.mpr hge]
  · intro i
    simp only [Dropout.forward, if_neg hcond]
  · intro i
    simp only [Dropout.forward, if_neg hcond]
    rcases lt_or_ge (r i.val) (1 - m.p_dropout) with hlt | hge
    · right
      simp [Dropout.mask, hlt, div_eq_mul_inv]
    · left
      simp [Dropout.mask, not_lt.mpr hge]

/-- Witness for C4 at a concrete module, input and random stream. -/
theorem C4_witness :
    ∃ mask : Fin 1 → ℚ, (∀ i, mask i = 0 ∨ mask i = 1) ∧
      (∀ i, (Dropout.forward ⟨1/2, true⟩ (fun _ => 0) (fun _ => 3)).1 i
        = (fun _ : Fin 1 => (3 : ℚ)) i * mask i / (1 - (1/2 : ℚ))) ∧
      (∀ i, (Dropout.forward ⟨1/2, true⟩ (fun _ => 0) (fun _ => 3)).1 i = 0 ∨
        (Dropout.forward ⟨1/2, true⟩ (fun _ => 0) (fun _ => 3)).1 i
          = (fun _ : Fin 1 => (3 : ℚ)) i * (1 - (1/2 : ℚ))⁻¹) :=
  C4_dropout_training_mask ⟨1/2, true⟩ (by norm_num) (by norm_num) rfl
    (fun _ => 0) (fun _ => 3)

/-- C5: outside of active training (`training = false` or
`p_dropout = 0`), `Dropout.forward` returns the input unchanged (and
draws nothing from the random stream). -/
theorem C5_dropout_identity {k : ℕ} (m : Dropout) (r : RNG)
    (x : Fin k → ℚ) (h : m.training = false ∨ m.p_dropout = 0) :
    m.forward r x = (x, r) := by
  simp only [Dropout.forward, if_pos h]

/-- Witness for C5 at a concrete module in evaluation mode. -/
theorem C5_witness :
    Dropout.forward ⟨1/2, false⟩ (fun _ => 0) (fun _ : Fin 1 => (5 : ℚ))
      = ((fun _ => 5), fun _ => 0) :=
  C5_dropout_identity ⟨1/2, false⟩ (fun _ => 0) (fun _ => 5) (Or.inl rfl)

/-- C6: constructors build the parameter tensors — `Embedding.init`
stores the `(num_embeddings, embedding_dim)` weight parameter;
`Linear.init` stores the `(in_size, out_size)` weight parameter and a
`(out_size,)` bias parameter exactly when `bias = true` (otherwise the
bias is `none`); `LayerNorm1d.init` stores all-ones weights and
all-zeros bias of shape `(dim,)`.  All shapes are carried by the
types. -/
theorem C6_init_builds_parameters :
    (∀ dim : ℕ, ∀ eps : ℝ,
      (LayerNorm1d.init dim eps).weights = (fun _ => 1) ∧
      (LayerNorm1d.init dim eps).bias = (fun _ => 0) ∧
      (LayerNorm1d.init dim eps).eps = eps) ∧
    (∀ in_size out_size : ℕ,
      ∀ wv : Fin in_size → Fin out_size → ℚ, ∀ bv : Fin out_size → ℚ,
      (Linear.init in_size out_size true wv bv).weights = wv ∧
      (Linear.init in_size out_size true wv bv).bias = some bv ∧
      (Linear.init in_size out_size false wv bv).weights = wv ∧
      (Linear.init in_size out_size false wv bv).bias = none) ∧
    (∀ n d : ℕ, ∀ vals : Fin n → Fin d → ℚ,
      (Embedding.init n d vals).weights = vals) := by
  refine ⟨fun dim eps => ⟨rfl, rfl, rfl⟩,
    fun a b wv bv => ⟨rfl, ?_, rfl, ?_⟩,
    fun n d vals => rfl⟩
  · simp [Linear.init]
  · simp [Linear.init]

/-- C7: every forward method is read-only on the module — as a state
transformer, each of the four forwards returns the module state it was
given, for its parameters and configuration fields alike. -/
theorem C7_forward_preserves_module_state :
    (∀ n d bs sl : ℕ, ∀ m : Embedding n d, ∀ x : Fin bs → Fin sl → ℕ,
      (m.forwardS x).2 = m) ∧
    (∀ k : ℕ, ∀ m : Dropout, ∀ r : RNG, ∀ x : Fin k → ℚ,
      (m.forwardS r x).2 = m) ∧
    (∀ a b n : ℕ, ∀ m : Linear a b, ∀ x : Fin n → Fin a → ℚ,
      (m.forwardS x).2 = m) ∧
    (∀ dim bs : ℕ, ∀ m : LayerNorm1d dim, ∀ x : Fin bs → Fin dim → ℝ,
      (m.forwardS x).2 = m) :=
  ⟨fun _ _ _ _ _ _ => rfl, fun _ _ _ _ => rfl,
   fun _ _ _ _ _ => rfl, fun _ _ _ _ => rfl⟩

/-- C8: under the documented shape preconditions (carried by the input
types) and with in-range word indices for `Embedding`, every forward
returns normally: no failure branch is reachable.  For `Linear` the
only failure point (`self.bias.value` with no stored bias) is
unreachable on modules built by the constructor. -/
theorem C8_no_failure_under_preconditions :
    (∀ n d bs sl : ℕ, ∀ m : Embedding n d, ∀ x : Fin bs → Fin sl → ℕ,
      (∀ b s, x b s < n) → m.forwardE x = some (m.forward x)) ∧
    (∀ a b nn : ℕ, ∀ flag : Bool,
      ∀ wv : Fin a → Fin b → ℚ, ∀ bv : Fin b → ℚ, ∀ x : Fin nn → Fin a → ℚ,
      (Linear.init a b flag wv bv).forwardE x
        = some ((Linear.init a b flag wv bv).forward x)) ∧
    (∀ dim bs : ℕ, ∀ m : LayerNorm1d dim, ∀ x : Fin bs → Fin dim → ℝ,
      m.forwardE x = some (m.forward x)) ∧
    (∀ k : ℕ, ∀ m : Dropout, ∀ r : RNG, ∀ x : Fin k → ℚ,
      m.forwardE r x = some (m.forward r x)) := by
  refine ⟨?_, ?_, fun _ _ _ _ => rfl, fun _ _ _ _ => rfl⟩
  · intro n d bs sl m x h
    simp only [Embedding.forwardE, if_pos h]
  · intro a b nn flag wv bv x
    cases flag
    · rfl
    · rfl

/-- Witness for C8 at a concrete embedding module and in-range input. -/
theorem C8_witness :
    Embedding.forwardE (⟨fun _ _ => (0 : ℚ)⟩ : Embedding 1 1)
      (fun (_ : Fin 1) (_ : Fin 1) => 0)
      = some (Embedding.forward (⟨fun _ _ => (0 : ℚ)⟩ : Embedding 1 1)
          (fun _ _ => 0)) :=
  C8_no_failure_under_preconditions.1 1 1 1 1 _ _ (by decide)

/-- C9 as stated is false: `Dropout.forward` in training mode reads the
global random stream, and two calls on the same module state and the
same input can return different outputs.  Here: `p_dropout = 1/2`,
training, input `(1)`; a stream whose first draw is `0` keeps the entry
(output `2`), a stream whose first draw is `1` zeroes it (output
`0`). -/
theorem C9_counterexample :
    ¬ ((Dropout.forward ⟨1/2, true⟩ (fun _ => 0) (fun _ : Fin 1 => (1 : ℚ))).1
      = (Dropout.forward ⟨1/2, true⟩ (fun _ => 1)
          (fun _ : Fin 1 => (1 : ℚ))).1) := by
  intro h
  have h0 := congrFun h 0
  norm_num [Dropout.forward, Dropout.mask] at h0

/-- C9 amended: `Embedding.forward`, `Linear.forward` and
`LayerNorm1d.forward` draw nothing from the random stream, so two calls
on the same module state and input agree; `Dropout.forward` agrees
across calls whenever it is not actively training (`training = false`
or `p_dropout = 0`), but in active training it depends on the stream
(see the counterexample). -/
theorem C9_amended_determinism :
    (∀ n d bs sl : ℕ, ∀ m : Embedding n d, ∀ x : Fin bs → Fin sl → ℕ,
      ∀ r₁ r₂ : RNG, (m.forwardR x r₁).1 = (m.forwardR x r₂).1) ∧
    (∀ a b nn : ℕ, ∀ m : Linear a b, ∀ x : Fin nn → Fin a → ℚ,
      ∀ r₁ r₂ : RNG, (m.forwardR x r₁).1 = (m.forwardR x r₂).1) ∧
    (∀ dim bs : ℕ, ∀ m : LayerNorm1d dim, ∀ x : Fin bs → Fin dim → ℝ,
      ∀ r₁ r₂ : RNG, (m.forwardR x r₁).1 = (m.forwardR x r₂).1) ∧
    (∀ k : ℕ, ∀ m : Dropout, ∀ x : Fin k → ℚ, ∀ r₁ r₂ : RNG,
      (m.training = false ∨ m.p_dropout = 0) →
      (m.forward r₁ x).1 = (m.forward r₂ x).1) := by
  refine ⟨fun _ _ _ _ _ _ _ _ => rfl, fun _ _ _ _ _ _ _ => rfl,
    fun _ _ _ _ _ _ => rfl, ?_⟩
  intro k m x r₁ r₂ h
  simp only [Dropout.forward, if_pos h]

/-- Witness for the amended C9 at a concrete non-training module. -/
theorem C9_witness :
    (Dropout.forward ⟨1/2, false⟩ (fun _ => 0) (fun _ : Fin 1 => (7 : ℚ))).1
      = (Dropout.forward ⟨1/2, false⟩ (fun _ => 1)
          (fun _ : Fin 1 => (7 : ℚ))).1 :=
  C9_amended_determinism.2.2.2 1 ⟨1/2, false⟩ (fun _ => 7)
    (fun _ => 0) (fun _ => 1) (Or.inl rfl)

/-- C10: over exact arithmetic, `LayerNorm1d.forward` is invariant
under adding a constant to every input entry. -/
theorem C10_layernorm_shift_invariant {dim bs : ℕ} (m : LayerNorm1d dim)
    (x : Fin bs → Fin dim → ℝ) (c : ℝ) (i : Fin bs) (j : Fin dim) :
    m.forward (fun a b => x a b + c) i j = m.forward x i j := by
  have hdim : (dim : ℝ) ≠ 0 :=
    Nat.cast_ne_zero.mpr (Nat.pos_iff_ne_zero.mp j.pos)
  have h1 : ∀ a : Fin bs, tmean (fun a b => x a b + c) a = tmean x a + c := by
    intro a
    show (∑ jj, (x a jj + c)) / (dim : ℝ) = (∑ jj, x a jj) / (dim : ℝ) + c
    rw [Finset.sum_add_distrib, Finset.sum_const, Finset.card_univ,
      Fintype.card_fin, nsmul_eq_mul]
    field_simp
    ring
  have h2 : (fun (a : Fin bs) (b : Fin dim) =>
        ((x a b + c) - tmean (fun a b => x a b + c) a)
          * ((x a b + c) - tmean (fun a b => x a b + c) a))
      = fun a b => (x a b - tmean x a) * (x a b - tmean x a) := by
    funext a b
    rw [h1 a]
    ring
  show ((x i j + c) - tmean (fun a b => x a b + c) i) /
      Real.sqrt (tmean (fun a b =>
        ((x a b + c) - tmean (fun a b => x a b + c) a)
          * ((x a b + c) - tmean (fun a b => x a b + c) a)) i + m.eps)
        * m.weights j + m.bias j
      = (x i j - tmean x i) /
      Real.sqrt (tmean (fun a b =>
        (x a b - tmean x a) * (x a b - tmean x a)) i + m.eps)
        * m.weights j + m.bias j
  rw [h2, h1 i]
  ring

end ModulesBasic
